import Mathlib

/-!
Verification of the ducktrace log-analysis engine (src/ducktrace.go).

The program reads log lines, parses each with a configured regex into a
record (timestamp, level, message), stores the records, and for each
configured event matches records against a start pattern and an end
pattern, pairs start/end timestamps positionally and reports per-pair
durations and their average.

Shallow embedding choices:
* Instants are `Int` nanoseconds since the Unix epoch (`time.Time` is
  exact over this range). Durations are `time.Duration`, an `int64`
  nanosecond count: `time.Time.Sub` saturates at the int64 bounds
  (`subDuration`), the `totalDuration += d` accumulation wraps modulo
  2^64 (`wrap64`), and the average divides with `int64` division
  truncating toward zero (`Int.tdiv`).
* Go's `regexp` package is an external library, so it is abstracted as a
  `RegexEngine` record: `compiles` models whether `regexp.MustCompile`
  succeeds, `findStringSubmatch` models `Regexp.FindStringSubmatch`
  (returning the whole match followed by the capture groups, or `none`
  when the line does not match), and `matchString` models
  `Regexp.MatchString`.
* `time.Parse("2006-01-02 15:04:05", s)` is embedded as `parseLayout`,
  which follows Go's parser for this layout: 4-digit year, 2-digit
  zero-padded month/day/minute/second, a 1-or-2-digit hour (the `"15"`
  layout code is non-padded), an optional fractional-second tail
  (`.` or `,` plus digits, the first 9 digits becoming nanoseconds)
  accepted even though the layout has none, calendar/clock range
  validation (leap years included), and no other trailing text; on
  success it yields nanoseconds since 1970-01-01.
* The DuckDB store is the ordered-record-store collaborator: a list of
  records in insertion order; `SELECT ... ORDER BY timestamp` is a stable
  insertion sort by timestamp.
* `must`/`os.Exit` aborts are the `none`/abort constructors of the result
  types; the `log_level = "debug"` flag only adds diagnostic output and
  is not modelled.
-/

namespace Ducktrace

/-- A parsed log record: `timestamp`, `level`, `message` columns of the
`logs` table in `ducktrace.go`. -/
structure LogRecord where
  timestamp : Int
  level : String
  message : String
deriving DecidableEq

/-- Outcome of analysing one event: either the `"No matches."` branch or a
result with the per-instance durations and the average duration
(`analyzeEvent`, src/ducktrace.go lines 160-185). -/
inductive EventOutcome where
  | noMatches : EventOutcome
  | result (instances : List Int) (average : Int) : EventOutcome
deriving DecidableEq

/-- `math.MinInt64`, the smallest `time.Duration` (= -2^63 ns). -/
def int64Min : Int := -9223372036854775808

/-- `math.MaxInt64`, the largest `time.Duration` (= 2^63 - 1 ns). -/
def int64Max : Int := 9223372036854775807

/-- Two's-complement int64 wrap-around: reduce modulo 2^64 into
`[-2^63, 2^63)`, as Go's `int64` addition does. -/
def wrap64 (x : Int) : Int :=
  (x + 9223372036854775808) % 18446744073709551616 - 9223372036854775808

/-- `time.Time.Sub` (nanosecond instants): the exact difference when it
fits in an int64 `time.Duration`, else the saturated
minimum/maximum duration. -/
def subDuration (t u : Int) : Int :=
  if t - u < int64Min then int64Min
  else if int64Max < t - u then int64Max
  else t - u

/-- The `totalDuration += d` accumulation of `analyzeEvent`
(src/ducktrace.go lines 171-174): an int64 sum, wrapping on overflow. -/
def sumWrapped (ds : List Int) : Int :=
  ds.foldl (fun acc d => wrap64 (acc + d)) 0

/-- The interval-aggregation step of `analyzeEvent`
(src/ducktrace.go lines 160-182): with either timestamp list empty it
prints `"No matches."` and returns; otherwise it pairs the lists
positionally up to `minLen`, the shorter length, computes
`ends[i].Sub(starts[i])` for each pair (int64-saturating), accumulates
the wrapping int64 total and divides it by `minLen`. -/
def aggregate (starts ends : List Int) : EventOutcome :=
  if starts.length = 0 ∨ ends.length = 0 then
    .noMatches
  else
    let minLen := if ends.length < starts.length then ends.length else starts.length
    let instances := List.zipWith subDuration ends starts
    let totalDuration := sumWrapped instances
    .result instances (Int.tdiv totalDuration (minLen : Int))

/-- Abstraction of Go's `regexp` package (an external library).
`compiles p` says whether `regexp.MustCompile(p)` succeeds (it panics
otherwise); `findStringSubmatch p line` is `FindStringSubmatch` of the
compiled pattern (`none` for Go's `nil`, otherwise the whole match
followed by the capture groups); `matchString p s` is `MatchString`. -/
structure RegexEngine where
  compiles : String → Bool
  findStringSubmatch : String → String → Option (List String)
  matchString : String → String → Bool

/-- The record loop of `analyzeEvent` (src/ducktrace.go lines 141-158):
for each row, in order, the message is tested independently against the
start pattern and the end pattern, and the row's timestamp is appended to
the corresponding accumulating slice on each hit. -/
def matchLoop (eng : RegexEngine) (startRegex endRegex : String) :
    List LogRecord → List Int → List Int → List Int × List Int
  | [], starts, ends => (starts, ends)
  | r :: rs, starts, ends =>
    matchLoop eng startRegex endRegex rs
      (if eng.matchString startRegex r.message then starts ++ [r.timestamp] else starts)
      (if eng.matchString endRegex r.message then ends ++ [r.timestamp] else ends)

/-- The Event Matcher: run `matchLoop` with empty accumulators, as
`analyzeEvent` does with its `starts`/`ends` slices. -/
def matchEvent (eng : RegexEngine) (startRegex endRegex : String)
    (records : List LogRecord) : List Int × List Int :=
  matchLoop eng startRegex endRegex records [] []

/-- Gregorian leap-year rule, as applied by Go's `time` package. -/
def isLeapYear (y : Nat) : Bool :=
  (y % 4 == 0 && y % 100 != 0) || y % 400 == 0

/-- Number of days in month `m` (1-12) of year `y`. -/
def daysInMonth (m y : Nat) : Nat :=
  if m = 2 then (if isLeapYear y then 29 else 28)
  else if m = 4 ∨ m = 6 ∨ m = 9 ∨ m = 11 then 30
  else 31

/-- Days in the months `1, ..., m-1` of year `y`. -/
def daysBeforeMonth (m y : Nat) : Nat :=
  (List.range' 1 (m - 1)).foldl (fun a mm => a + daysInMonth mm y) 0

/-- Number of leap years in `[0, y)` (proleptic Gregorian; year 0 is a
leap year). -/
def leapsBefore (y : Nat) : Nat :=
  if y = 0 then 0 else (y - 1) / 4 - (y - 1) / 100 + (y - 1) / 400 + 1

/-- Days in the years `0, ..., y-1`. -/
def daysBeforeYear (y : Nat) : Nat :=
  365 * y + leapsBefore y

/-- Day count of the civil date `y-m-d` from 0000-01-01. -/
def civilToDays (y m d : Nat) : Nat :=
  daysBeforeYear y + daysBeforeMonth m y + (d - 1)

/-- Seconds since the Unix epoch of a validated date-time. -/
def epochSecs (y mo d hh mi ss : Nat) : Int :=
  ((civilToDays y mo d : Int) - (civilToDays 1970 1 1 : Int)) * 86400
    + ((hh * 3600 + mi * 60 + ss : Nat) : Int)

/-- Read exactly `n` decimal digits, accumulating their value
(Go's `getnum`/`atoi` on a fixed-width field). -/
def readFixedAux (acc : Nat) : Nat → List Char → Option (Nat × List Char)
  | 0, cs => some (acc, cs)
  | _ + 1, [] => none
  | n + 1, c :: cs =>
    if c.isDigit then readFixedAux (acc * 10 + (c.toNat - 48)) n cs else none

/-- Read exactly `n` decimal digits. -/
def readFixed (n : Nat) (cs : List Char) : Option (Nat × List Char) :=
  readFixedAux 0 n cs

/-- Go's `getnum` with `fixed = false`: one or two decimal digits (used
for the non-padded `"15"` hour layout code). -/
def readNum : List Char → Option (Nat × List Char)
  | [] => none
  | [c1] => if c1.isDigit then some (c1.toNat - 48, []) else none
  | c1 :: c2 :: rest =>
    if c1.isDigit then
      if c2.isDigit then some ((c1.toNat - 48) * 10 + (c2.toNat - 48), rest)
      else some (c1.toNat - 48, c2 :: rest)
    else none

/-- Match one literal layout character. -/
def readChar (ch : Char) : List Char → Option (List Char)
  | [] => none
  | c :: rest => if c == ch then some rest else none

/-- Go's `parseNanoseconds`: the first nine fractional digits scaled to
a nanosecond count (further digits are consumed but ignored). -/
def fracToNanos (ds : List Char) : Nat :=
  let first9 := ds.take 9
  (first9.foldl (fun a c => a * 10 + (c.toNat - 48)) 0) * 10 ^ (9 - first9.length)

/-- The tail after the seconds field, as Go's `Parse` treats it for a
layout without a fractional second: empty means zero nanoseconds; a `.`
or `,` followed by one or more digits (and nothing else, or the leftover
would be `"extra text"`) is a fractional second; anything else is a
parse error. -/
def readFrac : List Char → Option Nat
  | [] => some 0
  | [_] => none
  | c0 :: c1 :: rest =>
    if (c0 == '.' || c0 == ',') && c1.isDigit then
      if (c1 :: rest).all Char.isDigit then some (fracToNanos (c1 :: rest)) else none
    else none

/-- Embedding of `time.Parse("2006-01-02 15:04:05", s)`: a 4-digit year,
`-`, 2-digit month, `-`, 2-digit day, space, 1-or-2-digit hour, `:`,
2-digit minute, `:`, 2-digit second, then an optional fractional-second
tail; the calendar/clock values must be in range (month 1-12, day 1 to
the month's length with leap years, hour 0-23, minute/second 0-59); on
success the absolute instant in nanoseconds since the Unix epoch is
returned. -/
def parseLayout (s : String) : Option Int := do
  let cs := s.data
  let (y, cs) ← readFixed 4 cs
  let cs ← readChar '-' cs
  let (mo, cs) ← readFixed 2 cs
  let cs ← readChar '-' cs
  let (dd, cs) ← readFixed 2 cs
  let cs ← readChar ' ' cs
  let (hh, cs) ← readNum cs
  let cs ← readChar ':' cs
  let (mi, cs) ← readFixed 2 cs
  let cs ← readChar ':' cs
  let (ss, cs) ← readFixed 2 cs
  let nsec ← readFrac cs
  if 1 ≤ mo && mo ≤ 12 && 1 ≤ dd && dd ≤ daysInMonth mo y
      && hh ≤ 23 && mi ≤ 59 && ss ≤ 59 then
    some (epochSecs y mo dd hh mi ss * 1000000000 + (nsec : Int))
  else none

/-- `parseTimestamp` (src/ducktrace.go lines 103-110): parse
`dateStr + " " + timeStr` under the fixed layout; the Go version calls
`must` on failure (fatal), modelled by `none` here. -/
def parseTimestamp (dateStr timeStr : String) : Option Int :=
  parseLayout (dateStr ++ " " ++ timeStr)

/-- Outcome of the per-line body of the ingestion loop in `main`
(src/ducktrace.go lines 62-85). -/
inductive LineOutcome where
  | noMatch : LineOutcome
  | malformed (groupCount : Nat) : LineOutcome
  | record (r : LogRecord) : LineOutcome
  | fatal : LineOutcome
deriving DecidableEq

/-- One iteration of the ingestion loop (src/ducktrace.go lines 62-85):
`FindStringSubmatch` returning `nil` skips the line; a match with fewer
than 5 entries (whole match plus 4 groups) is logged and skipped; else
groups 1-2 go to `parseTimestamp` (fatal via `must` on failure) and a
record `(ts, matches[3], matches[4])` is produced. -/
def processLine (eng : RegexEngine) (pat line : String) : LineOutcome :=
  match eng.findStringSubmatch pat line with
  | none => .noMatch
  | some ms =>
    if ms.length < 5 then .malformed ms.length
    else
      match parseTimestamp (ms.getD 1 "") (ms.getD 2 "") with
      | none => .fatal
      | some ts => .record ⟨ts, ms.getD 3 "", ms.getD 4 ""⟩

/-- Effect of one line on the record store: skipped lines leave it
unchanged, a record is inserted (`INSERT INTO logs`), a fatal timestamp
failure aborts (`none`). -/
def ingestLine (eng : RegexEngine) (pat : String) (store : List LogRecord)
    (line : String) : Option (List LogRecord) :=
  match processLine eng pat line with
  | .noMatch => some store
  | .malformed _ => some store
  | .record r => some (store ++ [r])
  | .fatal => none

/-- The whole ingestion loop over the input lines. -/
def ingestAll (eng : RegexEngine) (pat : String) :
    List String → List LogRecord → Option (List LogRecord)
  | [], store => some store
  | line :: rest, store =>
    match ingestLine eng pat store line with
    | none => none
    | some store2 => ingestAll eng pat rest store2

/-- Insert a record into a timestamp-sorted list, after all records with
a smaller-or-equal timestamp (stable for ties). -/
def insertByTimestamp (r : LogRecord) : List LogRecord → List LogRecord
  | [] => [r]
  | x :: xs =>
    if r.timestamp < x.timestamp then r :: x :: xs
    else x :: insertByTimestamp r xs

/-- The ordered-record-store read (`SELECT timestamp, message FROM logs
ORDER BY timestamp`): a stable sort of the inserted records by
timestamp. -/
def sortByTimestamp (rs : List LogRecord) : List LogRecord :=
  rs.foldl (fun acc r => insertByTimestamp r acc) []

/-- `analyzeEvent` (src/ducktrace.go lines 123-186): read the records in
timestamp order, compile both event patterns (`MustCompile` panics -
`none` - on an invalid pattern), run the matching loop and aggregate.
The record store is only queried, never written. -/
def analyzeEvent (eng : RegexEngine) (store : List LogRecord)
    (startRegex endRegex : String) : Option EventOutcome :=
  if eng.compiles startRegex && eng.compiles endRegex then
    let rows := sortByTimestamp store
    let se := matchEvent eng startRegex endRegex rows
    some (aggregate se.1 se.2)
  else none

/-- The configuration consumed by the core: the line-format pattern and
the configured events as `(name, start_regex, end_regex)` triples. -/
structure Config where
  pattern : String
  events : List (String × String × String)

/-- Result of a whole run of `main`: abort on a config error before
ingestion (`os.Exit(1)` on an empty pattern, or `MustCompile` panic on an
invalid line pattern), abort during ingestion (`must` panic), abort while
analysing an event (`MustCompile` panic on an event pattern, with the
fully ingested store and the events completed so far), or success. -/
inductive RunResult where
  | configAbort : RunResult
  | ingestAbort : RunResult
  | eventAbort (store : List LogRecord) (completed : List (String × EventOutcome)) : RunResult
  | success (store : List LogRecord) (results : List (String × EventOutcome)) : RunResult
deriving DecidableEq

/-- The record store carried by a run result that got past ingestion. -/
def storeAfter : RunResult → Option (List LogRecord)
  | .eventAbort store _ => some store
  | .success store _ => some store
  | _ => none

/-- The per-event loop at the end of `main` (src/ducktrace.go lines
89-92): analyse each configured event in turn against the store; a panic
inside `analyzeEvent` aborts the run. -/
def runEventsR (eng : RegexEngine) :
    List (String × String × String) → List LogRecord →
    List (String × EventOutcome) → RunResult
  | [], store, acc => .success store acc
  | (n, sp, ep) :: evs, store, acc =>
    match analyzeEvent eng store sp ep with
    | none => .eventAbort store acc
    | some o => runEventsR eng evs store (acc ++ [(n, o)])

/-- `main` (src/ducktrace.go lines 30-93): check the line-format pattern
(empty pattern exits; invalid pattern panics in `MustCompile`), then
ingest every line, then analyse each event. -/
def runMain (eng : RegexEngine) (cfg : Config) (lines : List String) : RunResult :=
  if cfg.pattern = "" then .configAbort
  else if eng.compiles cfg.pattern = false then .configAbort
  else
    match ingestAll eng cfg.pattern lines [] with
    | none => .ingestAbort
    | some store => runEventsR eng cfg.events store []

/-- `needle` is a prefix of `haystack` (character lists). -/
def isPrefixChars : List Char → List Char → Bool
  | [], _ => true
  | _ :: _, [] => false
  | p :: ps, c :: cs => p == c && isPrefixChars ps cs

/-- `needle` occurs as a contiguous substring of `haystack`. -/
def containsAt (needle : List Char) : List Char → Bool
  | [] => needle.isEmpty
  | c :: rest => isPrefixChars needle (c :: rest) || containsAt needle rest

/-- A well-formed start line used by concrete instantiations. -/
def sampleStartLine : String := "2024-01-01 10:00:00 [INFO] Backup job triggered"

/-- A well-formed end line used by concrete instantiations. -/
def sampleEndLine : String := "2024-01-01 10:00:05 [INFO] Backup job completed"

/-- A line whose match has only 2 capture groups (3 entries). -/
def malformedLine : String := "MALFORMED"

/-- A line that matches structurally but carries an invalid date
(month 13). -/
def badTsLine : String := "2024-13-01 10:00:00 [INFO] boom"

/-- A concrete regex engine used to instantiate the abstract
`RegexEngine` in witnesses: every pattern except `"("` compiles, the
submatcher recognises the fixed sample lines, and `matchString` is
substring containment. -/
def demoEngine : RegexEngine where
  compiles := fun p => p != "("
  findStringSubmatch := fun _ line =>
    if line = sampleStartLine then
      some [sampleStartLine, "2024-01-01", "10:00:00", "INFO", "Backup job triggered"]
    else if line = sampleEndLine then
      some [sampleEndLine, "2024-01-01", "10:00:05", "INFO", "Backup job completed"]
    else if line = malformedLine then
      some [malformedLine, "x", "y"]
    else if line = badTsLine then
      some [badTsLine, "2024-13-01", "10:00:00", "INFO", "boom"]
    else none
  matchString := fun p s => containsAt p.data s.data

/-- The records obtained by ingesting the two sample lines
(nanosecond instants). -/
def demoRecords : List LogRecord :=
  [⟨1704103200000000000, "INFO", "Backup job triggered"⟩,
   ⟨1704103205000000000, "INFO", "Backup job completed"⟩]

/-- A record whose message matches both demo patterns. -/
def demoBothRecord : LogRecord :=
  ⟨1704103300000000000, "INFO", "retry triggered and completed"⟩

lemma minLen_eq_min (a b : Nat) : (if b < a then b else a) = min a b := by
  split <;> omega

lemma wrap64_eq_self (x : Int) (h1 : int64Min ≤ x) (h2 : x ≤ int64Max) :
    wrap64 x = x := by
  unfold int64Min at h1
  unfold int64Max at h2
  have h3 : (0 : Int) ≤ x + 9223372036854775808 := by omega
  have h4 : x + 9223372036854775808 < 18446744073709551616 := by omega
  rw [wrap64, Int.emod_eq_of_lt h3 h4]
  omega

lemma subDuration_eq_sub (t u : Int)
    (h1 : int64Min ≤ t - u) (h2 : t - u ≤ int64Max) :
    subDuration t u = t - u := by
  unfold subDuration
  rw [if_neg (by omega), if_neg (by omega)]

lemma foldl_add_shift : ∀ (l : List Int) (a : Int),
    l.foldl (· + ·) a = a + l.foldl (· + ·) 0
  | [], a => by simp
  | d :: l, a => by
    simp only [List.foldl_cons, zero_add]
    rw [foldl_add_shift l (a + d), foldl_add_shift l d]
    ring

lemma sumWrappedAux :
    ∀ (l : List Int) (a : Int),
      (∀ k, k ≤ l.length → int64Min ≤ a + (l.take k).foldl (· + ·) 0 ∧
        a + (l.take k).foldl (· + ·) 0 ≤ int64Max) →
      l.foldl (fun acc d => wrap64 (acc + d)) a = a + l.foldl (· + ·) 0
  | [], a, _ => by simp
  | d :: l, a, h => by
    have hd := h 1 (by simp)
    simp only [List.take_succ_cons, List.take_zero, List.foldl_cons,
      List.foldl_nil, zero_add] at hd
    have hw : wrap64 (a + d) = a + d := wrap64_eq_self _ hd.1 hd.2
    have hnext : ∀ k, k ≤ l.length →
        int64Min ≤ (a + d) + (l.take k).foldl (· + ·) 0 ∧
        (a + d) + (l.take k).foldl (· + ·) 0 ≤ int64Max := by
      intro k hk
      have hks := h (k + 1) (Nat.succ_le_succ hk)
      simp only [List.take_succ_cons, List.foldl_cons, zero_add] at hks
      rw [foldl_add_shift (l.take k) d] at hks
      exact ⟨by linarith [hks.1], by linarith [hks.2]⟩
    calc (d :: l).foldl (fun acc x => wrap64 (acc + x)) a
        = l.foldl (fun acc x => wrap64 (acc + x)) (a + d) := by
          simp only [List.foldl_cons, hw]
      _ = (a + d) + l.foldl (· + ·) 0 := sumWrappedAux l (a + d) hnext
      _ = a + (d :: l).foldl (· + ·) 0 := by
          simp only [List.foldl_cons, zero_add]
          rw [foldl_add_shift l d]
          ring

/-- When every partial sum stays inside the int64 range, the wrapping
accumulation agrees with the exact sum. -/
lemma sumWrapped_no_overflow (l : List Int)
    (h : ∀ k, k ≤ l.length → int64Min ≤ (l.take k).foldl (· + ·) 0 ∧
      (l.take k).foldl (· + ·) 0 ≤ int64Max) :
    sumWrapped l = l.foldl (· + ·) 0 := by
  have hmain := sumWrappedAux l 0 (by intro k hk; simpa using h k hk)
  simpa [sumWrapped] using hmain

lemma zipWith_subDuration_getD :
    ∀ (es ss : List Int) (i : Nat), i < min es.length ss.length →
      (List.zipWith subDuration es ss).getD i 0 =
        subDuration (es.getD i 0) (ss.getD i 0)
  | [], _, i, h => by simp at h
  | _ :: _, [], i, h => by simp at h
  | e :: es, s :: ss, 0, _ => rfl
  | e :: es, s :: ss, i + 1, h => by
    have h' : i < min es.length ss.length := by
      simp only [List.length_cons] at h
      omega
    simpa using zipWith_subDuration_getD es ss i h'

/-- Counterexample to C1 as stated: with `starts = [0]` (1970-01-01) and
`ends = [2^63]` (about year 2262, both layout-reachable), the program's
instance is the saturated `time.Duration` maximum `2^63 - 1`, not the
positional difference `ends[0] - starts[0] = 2^63`. -/
theorem aggregate_exact_sub_counterexample :
    aggregate [(0 : Int)] [9223372036854775808] =
      .result [9223372036854775807] 9223372036854775807 ∧
    (9223372036854775807 : Int) ≠
      ([(9223372036854775808 : Int)]).getD 0 0 - ([(0 : Int)]).getD 0 0 := by
  constructor
  · decide
  · decide

/-- C1 (amended): for non-empty `starts` and `ends`, `aggregate` yields a
result with exactly `min (starts.length) (ends.length)` instances, the
`i`-th instance being the int64-saturating `ends[i].Sub(starts[i])` -
equal to the exact difference `ends[i] - starts[i]` whenever that fits in
int64 nanoseconds - and the average being the truncating int64 division
by that count of the wrapping int64 sum of the instances, which equals
the exact sum whenever no partial sum overflows. -/
theorem aggregate_pairs_int64 (starts ends : List Int)
    (hs : starts ≠ []) (he : ends ≠ []) :
    ∃ instances average,
      aggregate starts ends = .result instances average ∧
      instances.length = min starts.length ends.length ∧
      (∀ i, i < min starts.length ends.length →
        instances.getD i 0 = subDuration (ends.getD i 0) (starts.getD i 0)) ∧
      (∀ i, i < min starts.length ends.length →
        int64Min ≤ ends.getD i 0 - starts.getD i 0 →
        ends.getD i 0 - starts.getD i 0 ≤ int64Max →
        instances.getD i 0 = ends.getD i 0 - starts.getD i 0) ∧
      average = Int.tdiv (sumWrapped instances)
        ((min starts.length ends.length : Nat) : Int) ∧
      ((∀ k, k ≤ instances.length →
          int64Min ≤ (instances.take k).foldl (· + ·) 0 ∧
          (instances.take k).foldl (· + ·) 0 ≤ int64Max) →
        average = Int.tdiv (instances.foldl (· + ·) 0)
          ((min starts.length ends.length : Nat) : Int)) := by
  have hs' : starts.length ≠ 0 := by simpa [List.length_eq_zero] using hs
  have he' : ends.length ≠ 0 := by simpa [List.length_eq_zero] using he
  have hcond : ¬(starts.length = 0 ∨ ends.length = 0) := by omega
  refine ⟨List.zipWith subDuration ends starts,
    Int.tdiv (sumWrapped (List.zipWith subDuration ends starts))
      ((min starts.length ends.length : Nat) : Int), ?_, ?_, ?_, ?_, rfl, ?_⟩
  · simp only [aggregate, hcond, if_false, minLen_eq_min, sumWrapped]
  · rw [List.length_zipWith]; omega
  · intro i hi
    exact zipWith_subDuration_getD ends starts i (by omega)
  · intro i hi h1 h2
    rw [zipWith_subDuration_getD ends starts i (by omega)]
    exact subDuration_eq_sub _ _ h1 h2
  · intro hrange
    rw [sumWrapped_no_overflow _ hrange]

/-- Closed-form instantiation of `aggregate_pairs_int64` at
`starts = [0, 0]`, `ends = [2000000000, 3000000000]` (durations 2 s and
3 s; the program's average is 2500000000 ns, i.e. 2.5 s). -/
theorem aggregate_pairs_int64_witness :
    ∃ instances average,
      aggregate [(0 : Int), 0] [2000000000, 3000000000] = .result instances average ∧
      instances.length =
        min ([(0 : Int), 0]).length ([(2000000000 : Int), 3000000000]).length ∧
      (∀ i, i < min ([(0 : Int), 0]).length ([(2000000000 : Int), 3000000000]).length →
        instances.getD i 0 =
          subDuration (([(2000000000 : Int), 3000000000]).getD i 0)
            (([(0 : Int), 0]).getD i 0)) ∧
      (∀ i, i < min ([(0 : Int), 0]).length ([(2000000000 : Int), 3000000000]).length →
        int64Min ≤ ([(2000000000 : Int), 3000000000]).getD i 0 - ([(0 : Int), 0]).getD i 0 →
        ([(2000000000 : Int), 3000000000]).getD i 0 - ([(0 : Int), 0]).getD i 0 ≤ int64Max →
        instances.getD i 0 =
          ([(2000000000 : Int), 3000000000]).getD i 0 - ([(0 : Int), 0]).getD i 0) ∧
      average = Int.tdiv (sumWrapped instances)
        ((min ([(0 : Int), 0]).length ([(2000000000 : Int), 3000000000]).length : Nat) : Int) ∧
      ((∀ k, k ≤ instances.length →
          int64Min ≤ (instances.take k).foldl (· + ·) 0 ∧
          (instances.take k).foldl (· + ·) 0 ≤ int64Max) →
        average = Int.tdiv (instances.foldl (· + ·) 0)
          ((min ([(0 : Int), 0]).length
            ([(2000000000 : Int), 3000000000]).length : Nat) : Int)) :=
  aggregate_pairs_int64 [0, 0] [2000000000, 3000000000] (by decide) (by decide)

/-- C2: `aggregate` yields `noMatches` exactly when one of the two
timestamp lists is empty, whatever the other contains; the `noMatches`
constructor carries no instances and no average. -/
theorem aggregate_noMatches_iff (starts ends : List Int) :
    aggregate starts ends = .noMatches ↔ (starts = [] ∨ ends = []) := by
  by_cases h : starts.length = 0 ∨ ends.length = 0
  · simp only [aggregate, h, if_true]
    simpa [List.length_eq_zero] using h
  · simp only [aggregate, h, if_false]
    constructor
    · intro hcontra
      exact absurd hcontra (by simp)
    · intro hempty
      rcases hempty with h1 | h1 <;> simp [h1] at h

/-- C10: whenever `aggregate` reaches the division (the `result` branch),
the divisor `min starts.length ends.length` is at least 1, so the
division by `minLen` is never a division by zero. -/
theorem aggregate_divisor_positive (starts ends : List Int)
    (instances : List Int) (average : Int)
    (h : aggregate starts ends = .result instances average) :
    1 ≤ min starts.length ends.length := by
  rcases starts with _ | ⟨s, ss⟩
  · simp [aggregate] at h
  · rcases ends with _ | ⟨e, es⟩
    · simp [aggregate] at h
    · simp only [List.length_cons]
      omega

/-- Closed-form instantiation of `aggregate_divisor_positive` at
`starts = [3]`, `ends = [7]`. -/
theorem aggregate_divisor_positive_witness :
    1 ≤ min ([(3 : Int)]).length ([(7 : Int)]).length :=
  aggregate_divisor_positive [3] [7] [4] 4 (by decide)

lemma matchLoop_acc (eng : RegexEngine) (sp ep : String) :
    ∀ (rs : List LogRecord) (ss es : List Int),
      matchLoop eng sp ep rs ss es =
        (ss ++ (matchEvent eng sp ep rs).1, es ++ (matchEvent eng sp ep rs).2) := by
  intro rs
  induction rs with
  | nil => intro ss es; simp [matchLoop, matchEvent]
  | cons r rs ih =>
    intro ss es
    simp only [matchEvent, matchLoop]
    rw [ih, ih]
    by_cases h1 : eng.matchString sp r.message <;>
      by_cases h2 : eng.matchString ep r.message <;>
        simp [h1, h2]

/-- The Event Matcher equals a filter-and-project over the traversal
order: `starts` is the timestamp projection of the records whose message
matches the start pattern, `ends` likewise for the end pattern. -/
lemma matchEvent_eq (eng : RegexEngine) (sp ep : String) :
    ∀ records : List LogRecord,
      matchEvent eng sp ep records =
        ((records.filter fun r => eng.matchString sp r.message).map (fun r => r.timestamp),
         (records.filter fun r => eng.matchString ep r.message).map (fun r => r.timestamp)) := by
  intro records
  induction records with
  | nil => rfl
  | cons r rs ih =>
    simp only [matchEvent, matchLoop]
    rw [matchLoop_acc]
    rw [ih]
    by_cases h1 : eng.matchString sp r.message <;>
      by_cases h2 : eng.matchString ep r.message <;>
        simp [h1, h2, List.filter_cons]

/-- C4: on an input record sequence whose timestamps are already in
non-decreasing order, the Event Matcher returns a starts sequence and an
ends sequence that each preserve the traversal order (they are the
timestamp projections of in-order sublists of the input) and are
therefore themselves in non-decreasing timestamp order. -/
theorem matchEvent_order_preserving (eng : RegexEngine) (sp ep : String)
    (records : List LogRecord)
    (hsorted : (records.map (fun r => r.timestamp)).Pairwise (· ≤ ·)) :
    (matchEvent eng sp ep records).1 =
      ((records.filter fun r => eng.matchString sp r.message).map (fun r => r.timestamp)) ∧
    (matchEvent eng sp ep records).2 =
      ((records.filter fun r => eng.matchString ep r.message).map (fun r => r.timestamp)) ∧
    (matchEvent eng sp ep records).1.Pairwise (· ≤ ·) ∧
    (matchEvent eng sp ep records).2.Pairwise (· ≤ ·) := by
  have hrec : records.Pairwise (fun a b => a.timestamp ≤ b.timestamp) :=
    List.pairwise_map.mp hsorted
  rw [matchEvent_eq]
  exact ⟨rfl, rfl,
    List.pairwise_map.mpr (List.Pairwise.filter _ hrec),
    List.pairwise_map.mpr (List.Pairwise.filter _ hrec)⟩

/-- Closed-form instantiation of `matchEvent_order_preserving` on the
two-record sorted demo input. -/
theorem matchEvent_order_preserving_witness :
    (matchEvent demoEngine "triggered" "completed" demoRecords).1 =
      ((demoRecords.filter fun r => demoEngine.matchString "triggered" r.message).map
        (fun r => r.timestamp)) ∧
    (matchEvent demoEngine "triggered" "completed" demoRecords).2 =
      ((demoRecords.filter fun r => demoEngine.matchString "completed" r.message).map
        (fun r => r.timestamp)) ∧
    (matchEvent demoEngine "triggered" "completed" demoRecords).1.Pairwise (· ≤ ·) ∧
    (matchEvent demoEngine "triggered" "completed" demoRecords).2.Pairwise (· ≤ ·) :=
  matchEvent_order_preserving demoEngine "triggered" "completed" demoRecords (by decide)

/-- C5: a record whose message matches both the start pattern and the end
pattern contributes its timestamp exactly once to each output sequence:
appending such a record to the input appends its timestamp once to
`starts` and once to `ends`; the two pattern tests are independent. -/
theorem matchEvent_both_patterns (eng : RegexEngine) (sp ep : String)
    (records : List LogRecord) (r : LogRecord)
    (h1 : eng.matchString sp r.message = true)
    (h2 : eng.matchString ep r.message = true) :
    matchEvent eng sp ep (records ++ [r]) =
      ((matchEvent eng sp ep records).1 ++ [r.timestamp],
       (matchEvent eng sp ep records).2 ++ [r.timestamp]) := by
  rw [matchEvent_eq, matchEvent_eq]
  simp [List.filter_append, h1, h2]

/-- Closed-form instantiation of `matchEvent_both_patterns` with a record
matching both demo patterns. -/
theorem matchEvent_both_patterns_witness :
    matchEvent demoEngine "triggered" "completed" (demoRecords ++ [demoBothRecord]) =
      ((matchEvent demoEngine "triggered" "completed" demoRecords).1
        ++ [demoBothRecord.timestamp],
       (matchEvent demoEngine "triggered" "completed" demoRecords).2
        ++ [demoBothRecord.timestamp]) :=
  matchEvent_both_patterns demoEngine "triggered" "completed" demoRecords demoBothRecord
    (by decide) (by decide)

/-- C6: a line the pattern does not match at all, or matches with fewer
than 4 capture groups (fewer than 5 submatch entries), is skipped: the
store is unchanged, no record is constructed, ingestion continues with
the remaining lines and does not abort. -/
theorem skippable_line_continues (eng : RegexEngine) (pat line : String)
    (store : List LogRecord) (rest : List String)
    (h : eng.findStringSubmatch pat line = none ∨
      ∃ ms, eng.findStringSubmatch pat line = some ms ∧ ms.length < 5) :
    ingestLine eng pat store line = some store ∧
    ingestAll eng pat (line :: rest) store = ingestAll eng pat rest store := by
  have hstep : ingestLine eng pat store line = some store := by
    rcases h with h | ⟨ms, hms, hlen⟩
    · simp [ingestLine, processLine, h]
    · simp [ingestLine, processLine, hms, hlen]
  exact ⟨hstep, by simp [ingestAll, hstep]⟩

/-- Closed-form instantiation of `skippable_line_continues` on the
3-entry malformed match. -/
theorem skippable_line_continues_witness :
    ingestLine demoEngine "LINEPAT" demoRecords malformedLine = some demoRecords ∧
    ingestAll demoEngine "LINEPAT" [malformedLine] demoRecords =
      ingestAll demoEngine "LINEPAT" [] demoRecords :=
  skippable_line_continues demoEngine "LINEPAT" malformedLine demoRecords []
    (Or.inr ⟨[malformedLine, "x", "y"], by decide, by decide⟩)

/-- C7: a line that matches with at least 4 capture groups but whose
date/time groups do not parse under the fixed layout makes the whole
ingestion fail (`must` panics): the run aborts, the line is not
skipped. -/
theorem unparseableTimestamp_fatal (eng : RegexEngine) (pat line : String)
    (store : List LogRecord) (rest : List String) (ms : List String)
    (hms : eng.findStringSubmatch pat line = some ms)
    (hlen : ¬ ms.length < 5)
    (hts : parseTimestamp (ms.getD 1 "") (ms.getD 2 "") = none) :
    ingestAll eng pat (line :: rest) store = none := by
  have hpl : processLine eng pat line = .fatal := by
    simp only [processLine, hms]
    rw [if_neg hlen, hts]
  simp only [ingestAll, ingestLine, hpl]

/-- Closed-form instantiation of `unparseableTimestamp_fatal` on the
month-13 line. -/
theorem unparseableTimestamp_fatal_witness :
    ingestAll demoEngine "LINEPAT" [badTsLine] [] = none :=
  unparseableTimestamp_fatal demoEngine "LINEPAT" badTsLine [] []
    [badTsLine, "2024-13-01", "10:00:00", "INFO", "boom"]
    (by decide) (by decide) (by decide)

/-- Lenience check against Go: the `"15"` hour layout code accepts a
single digit, so `"2024-01-01 9:00:00"` parses (to 09:00:00) rather than
failing. -/
theorem parseLayout_single_digit_hour :
    parseLayout "2024-01-01 9:00:00" = some 1704099600000000000 := by
  decide

/-- Lenience check against Go: a fractional-second tail is accepted even
though the layout has none; `".5"` contributes 500000000 ns. -/
theorem parseLayout_fractional_second :
    parseLayout "2024-01-01 10:00:05.5" = some 1704103205500000000 := by
  decide

/-- C8: Line Parser round-trip: if the pattern matches a line with the
four ordered groups `(date, time, level, msg)`, the parsed record carries
exactly that level and message, and its timestamp is the result of
parsing `date ++ " " ++ time` directly under the fixed layout. -/
theorem lineRoundTrip (eng : RegexEngine) (pat line whole date time level msg : String)
    (t : Int)
    (hms : eng.findStringSubmatch pat line = some [whole, date, time, level, msg])
    (ht : parseLayout (date ++ " " ++ time) = some t) :
    processLine eng pat line = .record ⟨t, level, msg⟩ := by
  simp [processLine, hms, parseTimestamp, ht]

/-- Closed-form instantiation of `lineRoundTrip` on the sample start
line. -/
theorem lineRoundTrip_witness :
    processLine demoEngine "LINEPAT" sampleStartLine =
      .record ⟨1704103200000000000, "INFO", "Backup job triggered"⟩ :=
  lineRoundTrip demoEngine "LINEPAT" sampleStartLine sampleStartLine
    "2024-01-01" "10:00:00" "INFO" "Backup job triggered" 1704103200000000000
    (by decide) (by decide)

lemma runEventsR_success (eng : RegexEngine) :
    ∀ (evs : List (String × String × String)) (store : List LogRecord)
      (acc : List (String × EventOutcome)) (store' : List LogRecord)
      (results : List (String × EventOutcome)),
      runEventsR eng evs store acc = .success store' results →
      store' = store ∧
      results = acc ++ evs.map
        (fun e => (e.1, (analyzeEvent eng store e.2.1 e.2.2).getD .noMatches)) := by
  intro evs
  induction evs with
  | nil =>
    intro store acc store' results h
    simp only [runEventsR] at h
    cases h
    simp
  | cons ev evs ih =>
    intro store acc store' results h
    obtain ⟨n, sp, ep⟩ := ev
    simp only [runEventsR] at h
    rcases hA : analyzeEvent eng store sp ep with _ | o
    · rw [hA] at h
      cases h
    · rw [hA] at h
      rcases ih store (acc ++ [(n, o)]) store' results h with ⟨hstore, hres⟩
      refine ⟨hstore, ?_⟩
      simp [hres, hA]

lemma runEventsR_bad_event (eng : RegexEngine) :
    ∀ (evs : List (String × String × String)) (store : List LogRecord)
      (acc : List (String × EventOutcome)),
      (∃ e ∈ evs, eng.compiles e.2.1 = false ∨ eng.compiles e.2.2 = false) →
      ∃ acc2, runEventsR eng evs store acc = .eventAbort store acc2 := by
  intro evs
  induction evs with
  | nil =>
    intro store acc h
    rcases h with ⟨e, he, _⟩
    simp at he
  | cons ev evs ih =>
    intro store acc h
    obtain ⟨n, sp, ep⟩ := ev
    rcases hA : analyzeEvent eng store sp ep with _ | o
    · exact ⟨acc, by simp [runEventsR, hA]⟩
    · have hcomp : (eng.compiles sp && eng.compiles ep) = true := by
        by_contra hc
        have hfalse : (eng.compiles sp && eng.compiles ep) = false := by
          revert hc
          cases eng.compiles sp && eng.compiles ep <;> simp
        simp [analyzeEvent, hfalse] at hA
      rw [Bool.and_eq_true] at hcomp
      rcases hcomp with ⟨hc1, hc2⟩
      rcases h with ⟨e, he, hbad⟩
      rcases List.mem_cons.mp he with heq | hmem
      · exfalso
        subst heq
        rcases hbad with hb | hb
        · simp [hb] at hc1
        · simp [hb] at hc2
      · rcases ih store (acc ++ [(n, o)]) ⟨e, hmem, hbad⟩ with ⟨acc2, hrun⟩
        exact ⟨acc2, by simp [runEventsR, hA, hrun]⟩

/-- C3 (amended): an empty line-format pattern (and, by the same branch,
a non-compiling line-format pattern) aborts the run before any
ingestion; a non-compiling event start/end pattern also aborts the run,
but only during the per-event analysis, after all log lines have been
ingested (the fully ingested store is present at the abort). -/
theorem configError_abort_policy (eng : RegexEngine) (cfg : Config) (lines : List String) :
    (cfg.pattern = "" → runMain eng cfg lines = .configAbort) ∧
    (∀ store, cfg.pattern ≠ "" → eng.compiles cfg.pattern = true →
      ingestAll eng cfg.pattern lines [] = some store →
      (∃ e ∈ cfg.events, eng.compiles e.2.1 = false ∨ eng.compiles e.2.2 = false) →
      ∃ acc, runMain eng cfg lines = .eventAbort store acc) := by
  refine ⟨fun h => by simp [runMain, h], ?_⟩
  intro store hp hc hing hbad
  rcases runEventsR_bad_event eng cfg.events store [] hbad with ⟨acc2, hrun⟩
  refine ⟨acc2, ?_⟩
  simp [runMain, hp, hc, hing, hrun]

/-- Counterexample to C3 as stated: with a valid line-format pattern, one
well-formed log line and an event whose start pattern does not compile,
the run aborts only at event analysis, with one record already ingested -
so the unparseable event pattern did NOT abort before log-line
ingestion. -/
theorem configError_abort_counterexample :
    demoEngine.compiles "(" = false ∧
    runMain demoEngine ⟨"LINEPAT", [("bad", "(", "completed")]⟩ [sampleStartLine] =
      .eventAbort [⟨1704103200000000000, "INFO", "Backup job triggered"⟩] [] := by
  constructor
  · rfl
  · decide

/-- Closed-form instantiation of `configError_abort_policy`: the empty
pattern aborts immediately, and a non-compiling event pattern aborts with
the store fully ingested. -/
theorem configError_abort_policy_witness :
    runMain demoEngine ⟨"", []⟩ [] = .configAbort ∧
    ∃ acc, runMain demoEngine ⟨"LINEPAT", [("late", "(", "done")]⟩ [sampleEndLine] =
      .eventAbort [⟨1704103205000000000, "INFO", "Backup job completed"⟩] acc :=
  ⟨(configError_abort_policy demoEngine ⟨"", []⟩ []).1 rfl,
   (configError_abort_policy demoEngine ⟨"LINEPAT", [("late", "(", "done")]⟩
      [sampleEndLine]).2
     [⟨1704103205000000000, "INFO", "Backup job completed"⟩]
     (by decide) (by decide) (by decide)
     ⟨("late", "(", "done"), by decide, Or.inl (by decide)⟩⟩

/-- C9: the per-event loop never modifies the record store (the store in
the final result is the input store), and on a completed run every
event's result is `analyzeEvent` of the identical, full record store -
no event's outcome enters any other event's analysis. -/
theorem analyzeEvent_reads_only (eng : RegexEngine)
    (evs : List (String × String × String)) (store store' : List LogRecord)
    (results : List (String × EventOutcome))
    (h : runEventsR eng evs store [] = .success store' results) :
    store' = store ∧
    results = evs.map
      (fun e => (e.1, (analyzeEvent eng store e.2.1 e.2.2).getD .noMatches)) := by
  have hmain := runEventsR_success eng evs store [] store' results h
  simpa using hmain

/-- Closed-form instantiation of `analyzeEvent_reads_only` on a
one-event run over the demo store. -/
theorem analyzeEvent_reads_only_witness :
    demoRecords = demoRecords ∧
    [("backup", EventOutcome.result [5000000000] 5000000000)] =
      [("backup", "triggered", "completed")].map
        (fun e => (e.1, (analyzeEvent demoEngine demoRecords e.2.1 e.2.2).getD .noMatches)) :=
  analyzeEvent_reads_only demoEngine [("backup", "triggered", "completed")]
    demoRecords demoRecords [("backup", EventOutcome.result [5000000000] 5000000000)]
    (by decide)

end Ducktrace
